import Mathlib

/-!
Verification development for the lemondb storage/query engine
(`src/lemondb`).  The Python data model and the operations touched by the
specification are embedded shallowly: Python dicts become ordered
association lists, machine-level effects (file writes) become explicit
result values, and Python exceptions become an `Except` error monad.

Modules `lemondb.types`, `lemondb.constants`, `lemondb.errors` and
`lemondb.globals` are imported by the sources but are not part of the
source tree; the definitions taken from them (`type_mapping`, `ops`,
`SearchQueryError`, `version`) are modelled from the specification and
are marked as such in their doc comments.
-/

namespace LemonDB

/-- The in-memory Python value model of lemondb records.

A record field holds one of: `None`, `bool`, `int`, `float`, `str`,
`bytes`, `datetime.datetime`, a nested `dict`, or a sequence.  Python
dicts are ordered, so `vDict` carries an ordered association list
(field iteration order); real Python dicts cannot contain a duplicate
key.  A `float` is carried as its IEEE-754 bit pattern (the engine never
computes with floats, it only stores and compares them for equality); a
`bytes` value is carried by its UTF-8 decoding (`bytes.decode` /
`str.encode` of the codec become the identity on this carrier); a
`datetime` is carried by its canonical ISO text (`isoformat` /
`fromisoformat` become the identity on this carrier). -/
inductive PyVal where
  | vNone : PyVal
  | vBool (b : Bool) : PyVal
  | vInt (n : Int) : PyVal
  | vFloat (bits : Nat) : PyVal
  | vStr (s : String) : PyVal
  | vBytes (utf8 : String) : PyVal
  | vDatetime (iso : String) : PyVal
  | vDict (fields : List (String × PyVal)) : PyVal
  | vSeq (xs : List PyVal) : PyVal

mutual

/-- Structural (Python `==`) equality of values.  Python's cross-type
numeric equalities (`1 == 1.0 == True`) are not modelled; no claim
depends on them. -/
def beqV : PyVal → PyVal → Bool
  | .vNone, .vNone => true
  | .vBool a, .vBool b => a == b
  | .vInt a, .vInt b => a == b
  | .vFloat a, .vFloat b => a == b
  | .vStr a, .vStr b => a == b
  | .vBytes a, .vBytes b => a == b
  | .vDatetime a, .vDatetime b => a == b
  | .vDict fs, .vDict gs => beqFields fs gs
  | .vSeq xs, .vSeq ys => beqSeq xs ys
  | _, _ => false

/-- Equality of ordered dicts, key by key in order. -/
def beqFields : List (String × PyVal) → List (String × PyVal) → Bool
  | [], [] => true
  | (k, v) :: fs, (k₂, v₂) :: gs => k == k₂ && beqV v v₂ && beqFields fs gs
  | _, _ => false

/-- Equality of sequences, element by element. -/
def beqSeq : List PyVal → List PyVal → Bool
  | [], [] => true
  | x :: xs, y :: ys => beqV x y && beqSeq xs ys
  | _, _ => false

end

/-- Bespoke induction principle for the nested inductive `PyVal`. -/
theorem pyValInd (motive : PyVal → Prop)
    (hNone : motive .vNone)
    (hBool : ∀ b, motive (.vBool b))
    (hInt : ∀ n, motive (.vInt n))
    (hFloat : ∀ x, motive (.vFloat x))
    (hStr : ∀ s, motive (.vStr s))
    (hBytes : ∀ s, motive (.vBytes s))
    (hDatetime : ∀ s, motive (.vDatetime s))
    (hDict : ∀ fs, (∀ p ∈ fs, motive (Prod.snd p)) → motive (.vDict fs))
    (hSeq : ∀ xs, (∀ x ∈ xs, motive x) → motive (.vSeq xs)) :
    ∀ v, motive v
  | .vNone => hNone
  | .vBool b => hBool b
  | .vInt n => hInt n
  | .vFloat x => hFloat x
  | .vStr s => hStr s
  | .vBytes s => hBytes s
  | .vDatetime s => hDatetime s
  | .vDict fs => hDict fs (fun p hp =>
      have h1 : sizeOf p < sizeOf fs := List.sizeOf_lt_of_mem hp
      have h2 : sizeOf p.2 < sizeOf p := by
        obtain ⟨a, b⟩ := p
        simp only [Prod.mk.sizeOf_spec]
        omega
      have : sizeOf p.2 < 1 + sizeOf fs := by omega
      pyValInd motive hNone hBool hInt hFloat hStr hBytes hDatetime hDict hSeq p.2)
  | .vSeq xs => hSeq xs (fun x hx =>
      have h1 : sizeOf x < sizeOf xs := List.sizeOf_lt_of_mem hx
      have : sizeOf x < 1 + sizeOf xs := by omega
      pyValInd motive hNone hBool hInt hFloat hStr hBytes hDatetime hDict hSeq x)
termination_by v => sizeOf v

/-- `beqFields` decides equality of dicts, given that `beqV` decides the
values appearing in the left dict. -/
theorem beqFields_iff (fs : List (String × PyVal))
    (ih : ∀ p ∈ fs, ∀ w, beqV (Prod.snd p) w = true ↔ Prod.snd p = w) :
    ∀ gs, beqFields fs gs = true ↔ fs = gs := by
  induction fs with
  | nil => intro gs; cases gs <;> simp [beqFields]
  | cons p fs ihl =>
    intro gs
    obtain ⟨k, v⟩ := p
    cases gs with
    | nil => simp [beqFields]
    | cons q gs =>
      obtain ⟨k₂, v₂⟩ := q
      have hv : ∀ w, beqV v w = true ↔ v = w := by simpa using ih (k, v) (by simp)
      have hrest := ihl (fun p hp w => ih p (by simp [hp]) w) gs
      simp [beqFields, hrest, hv v₂, Prod.ext_iff, and_assoc]

/-- `beqSeq` decides equality of sequences, given that `beqV` decides
the elements of the left sequence. -/
theorem beqSeq_iff (xs : List PyVal)
    (ih : ∀ x ∈ xs, ∀ w, beqV x w = true ↔ x = w) :
    ∀ ys, beqSeq xs ys = true ↔ xs = ys := by
  induction xs with
  | nil => intro ys; cases ys <;> simp [beqSeq]
  | cons x xs ihl =>
    intro ys
    cases ys with
    | nil => simp [beqSeq]
    | cons y ys =>
      have hrest := ihl (fun x hx w => ih x (by simp [hx]) w) ys
      simp [beqSeq, hrest, ih x (by simp) y]

/-- `beqV` decides propositional equality of values. -/
theorem beqV_iff : ∀ a b : PyVal, beqV a b = true ↔ a = b := by
  intro a
  induction a using pyValInd with
  | hNone => intro b; cases b <;> simp [beqV]
  | hBool a => intro b; cases b <;> simp [beqV]
  | hInt a => intro b; cases b <;> simp [beqV]
  | hFloat a => intro b; cases b <;> simp [beqV]
  | hStr a => intro b; cases b <;> simp [beqV]
  | hBytes a => intro b; cases b <;> simp [beqV]
  | hDatetime a => intro b; cases b <;> simp [beqV]
  | hDict fs ih =>
    intro b; cases b <;> simp [beqV]
    exact beqFields_iff fs ih _
  | hSeq xs ih =>
    intro b; cases b <;> simp [beqV]
    exact beqSeq_iff xs ih _

instance : DecidableEq PyVal := fun a b =>
  decidable_of_iff (beqV a b = true) (beqV_iff a b)

/-- Python exceptions that the embedded code can raise.  Only the
exception class matters for the claims, never the message. -/
inductive PyErr where
  | typeError
  | keyError
  | valueError
  | attributeError
  | indexError
  | searchQueryError
  deriving DecidableEq, Repr

/-- Decidable equality of `Except` results (kernel-reducible, for
closed evaluations). -/
instance {ε α : Type} [DecidableEq ε] [DecidableEq α] : DecidableEq (Except ε α)
  | .ok a, .ok b => decidable_of_iff (a = b) (by simp)
  | .error a, .error b => decidable_of_iff (a = b) (by simp)
  | .ok _, .error _ => isFalse (by simp)
  | .error _, .ok _ => isFalse (by simp)

abbrev Fields := List (String × PyVal)

/-- Python `d[k]` lookup on an ordered dict (first binding wins; a real
Python dict has unique keys). -/
def dictGet (fs : Fields) (k : String) : Option PyVal :=
  match fs with
  | [] => none
  | (k₀, v₀) :: rest => if k₀ = k then some v₀ else dictGet rest k

/-- Python `d.update` with a single binding / `d[k] = v`: replace the
value in place (keeping the key's position) if the key is present,
otherwise append the binding at the end. -/
def dictUpdate (fs : Fields) (k : String) (v : PyVal) : Fields :=
  match fs with
  | [] => [(k, v)]
  | (k₀, v₀) :: rest =>
    if k₀ = k then (k₀, v) :: rest else (k₀, v₀) :: dictUpdate rest k v

/-- Remove the first binding of `k`, if any (the leftover dict of a
Python `d.pop(k)`). -/
def dictRemoveKey (fs : Fields) (k : String) : Fields :=
  match fs with
  | [] => []
  | (k₀, v₀) :: rest =>
    if k₀ = k then rest else (k₀, v₀) :: dictRemoveKey rest k

/-- Python `d.pop(k)` : the popped value together with the leftover
dict, or `none` (a `KeyError`) when the key is absent. -/
def dictPop (fs : Fields) (k : String) : Option (PyVal × Fields) :=
  (dictGet fs k).map (fun v => (v, dictRemoveKey fs k))

/-- Python truthiness (`bool(v)` / `if v:`).  For floats every nonzero
bit pattern is treated as truthy; `-0.0` is not distinguished (no claim
involves float truthiness). -/
def pyTruthy : PyVal → Bool
  | .vNone => false
  | .vBool b => b
  | .vInt n => n != 0
  | .vFloat bits => bits != 0
  | .vStr s => s != ""
  | .vBytes s => s != ""
  | .vDatetime _ => true
  | .vDict fs => !fs.isEmpty
  | .vSeq xs => !xs.isEmpty

/-! ## Codec (`lemondb/utils.py`: `typenize` / `untypenize`)

`lemondb.types` is imported by `utils.py` but is not part of the source
tree.  Modelled from the spec: §4.2 fixes the type table to
boolean, integer, float, string, binary, timestamp and null, each mapped
to a tag; nested dicts and sequences have no entry (nested records
contribute a nested manifest list instead of a scalar tag).  All tags
are non-empty strings, so Python's `if _type:` coincides with the tag
being present. -/

/-- `type_mapping.get(type(v), None)` — the scalar tag of a value's
logical type, or `none` when the type has no entry. -/
def typeTag : PyVal → Option String
  | .vNone => some "NoneType"
  | .vBool _ => some "bool"
  | .vInt _ => some "int"
  | .vFloat _ => some "float"
  | .vStr _ => some "str"
  | .vBytes _ => some "bytes"
  | .vDatetime _ => some "datetime"
  | .vDict _ => none
  | .vSeq _ => none

/-- The leaf conversion of `_typenize`: `bytes` values are decoded to
text, `datetime` values are rendered as ISO text, everything else is
stored unchanged. -/
def convertLeaf : PyVal → PyVal
  | .vBytes s => .vStr s
  | .vDatetime iso => .vStr iso
  | v => v

/-- `_typenize(data)` of `utils.py`, threading the `_l` variable: the
converted fields together with the produced manifest.  The second
argument is the current value of `_l`, which Python only reassigns when
a field holds a dict — a stale nested manifest therefore leaks into the
tag of a later untagged non-dict field (`elif _l: l.append(_l)`). -/
def pyTypenizeAux : Fields → List PyVal → Fields × List PyVal
  | [], _ => ([], [])
  | (k, v) :: rest, stale =>
    match v with
    | .vDict nfs =>
      let inner := pyTypenizeAux nfs []
      let tail := pyTypenizeAux rest inner.2
      let contrib : List PyVal := if inner.2.isEmpty then [] else [PyVal.vSeq inner.2]
      ((k, PyVal.vDict inner.1) :: tail.1, contrib ++ tail.2)
    | _ =>
      let tail := pyTypenizeAux rest stale
      let contrib : List PyVal :=
        match typeTag v with
        | some t => [PyVal.vStr t]
        | none => if stale.isEmpty then [] else [PyVal.vSeq stale]
      ((k, convertLeaf v) :: tail.1, contrib ++ tail.2)

/-- `typenize(data)`: run `_typenize` and attach the manifest as the
`$type` field (an empty list when nothing was tracked — both source
branches perform the same `data.update`). -/
def pyTypenize (fs : Fields) : Fields :=
  let r := pyTypenizeAux fs []
  dictUpdate r.1 "$type" (.vSeq r.2)

/-- The logical types appearing as values of `type_mapping` (modelled
from the spec, see the section comment). -/
inductive PyType where
  | tNone | tBool | tInt | tFloat | tStr | tBytes | tDatetime
  deriving DecidableEq

/-- The inverse mapping `t = dict((v,k) for k,v in type_mapping.items())`
restricted to string keys; looking up a missing key is a `KeyError`. -/
def invTypeTag : String → Option PyType
  | "NoneType" => some .tNone
  | "bool" => some .tBool
  | "int" => some .tInt
  | "float" => some .tFloat
  | "str" => some .tStr
  | "bytes" => some .tBytes
  | "datetime" => some .tDatetime
  | _ => none

/-- The leaf reversal of `untypenize`: `v.encode()` for the bytes tag,
`datetime.fromisoformat(v)` for the datetime tag, and `_type(v)`
otherwise.  On the carriers of this model `encode`/`fromisoformat` are
the identity on the payload.  Constructor calls that cannot be expressed
on the carrier (such as `int()` of a float bit pattern) are modelled as
a `TypeError`; no claim exercises them.  For the null tag the spec's
"reverses each leaf conversion" is the identity (null undergoes no
conversion). -/
def applyType : PyType → PyVal → Except PyErr PyVal
  | .tBytes, .vStr s => .ok (.vBytes s)
  | .tBytes, _ => .error .attributeError
  | .tDatetime, .vStr s => .ok (.vDatetime s)
  | .tDatetime, _ => .error .typeError
  | .tNone, v => .ok v
  | .tBool, v => .ok (.vBool (pyTruthy v))
  | .tInt, .vInt n => .ok (.vInt n)
  | .tInt, .vBool b => .ok (.vInt (if b then 1 else 0))
  | .tInt, .vStr s =>
    match s.toInt? with
    | some n => .ok (.vInt n)
    | none => .error .valueError
  | .tInt, _ => .error .typeError
  | .tFloat, .vFloat bits => .ok (.vFloat bits)
  | .tFloat, _ => .error .typeError
  | .tStr, .vStr s => .ok (.vStr s)
  | .tStr, _ => .error .typeError

/-- Removing a key never enlarges a dict (termination measure helper). -/
theorem sizeOf_dictRemoveKey_le (fs : Fields) (k : String) :
    sizeOf (dictRemoveKey fs k) ≤ sizeOf fs := by
  induction fs with
  | nil => simp [dictRemoveKey]
  | cons p rest ih =>
    obtain ⟨k₀, v₀⟩ := p
    by_cases h : k₀ = k
    · simp [dictRemoveKey, h]
    · simp [dictRemoveKey, h]
      omega

/-- The field walk of `untypenize`: zip the fields against the manifest
(`zip` truncates at the shorter list, leaving the remaining fields
untouched).  A list tag over a dict value re-attaches the tag as the
nested `$type` and recurses — updating then popping `$type` amounts to
removing any existing `$type` binding and decoding against the new tag
list.  A scalar tag is looked up in the inverse type table and its leaf
conversion reversed; a list tag over a non-dict value is Python's
unhashable-key `TypeError`, a scalar tag without an entry a `KeyError`. -/
def untypenizeFields : Fields → List PyVal → Except PyErr Fields
  | fs, [] => .ok fs
  | [], _ :: _ => .ok []
  | (k, v) :: fs, i :: ts =>
    match i, v with
    | .vSeq m, .vDict nfs =>
      match untypenizeFields (dictRemoveKey nfs "$type") m with
      | .error e => .error e
      | .ok nfs₂ =>
        match untypenizeFields fs ts with
        | .error e => .error e
        | .ok rest => .ok ((k, PyVal.vDict nfs₂) :: rest)
    | .vSeq _, _ => .error .typeError
    | .vStr tag, _ =>
      match invTypeTag tag with
      | none => .error .keyError
      | some ty =>
        match applyType ty v with
        | .error e => .error e
        | .ok v₂ =>
          match untypenizeFields fs ts with
          | .error e => .error e
          | .ok rest => .ok ((k, v₂) :: rest)
    | _, _ => .error .keyError
termination_by fs ts => sizeOf fs + sizeOf ts
decreasing_by
  · have := sizeOf_dictRemoveKey_le nfs "$type"
    simp_all
    omega
  · simp
    omega
  · simp
    omega

/-- `untypenize(data)`: pop the `$type` manifest (`KeyError` when it is
absent) and reverse the conversions field by field.  A manifest that is
not a list is modelled as a `TypeError`; no claim exercises that path. -/
def pyUntypenize (fs : Fields) : Except PyErr Fields :=
  match dictPop fs "$type" with
  | none => .error .keyError
  | some (.vSeq ts, rest) => untypenizeFields rest ts
  | some (_, _) => .error .typeError

/-- Well-formed records in the sense of the codec claim: every leaf is
of a supported type (the type table covers every non-dict constructor
except sequences), no field is named `$type`, and every nested record is
non-empty — these are exactly the records in which every field
contributes one manifest entry, keeping the `zip` of `untypenize`
aligned. -/
def goodFields : Fields → Bool
  | [] => true
  | (k, v) :: fs =>
    k != "$type" &&
    (match v with
     | .vDict nfs => !nfs.isEmpty && goodFields nfs
     | .vSeq _ => false
     | _ => true) &&
    goodFields fs

/-! ## Table store (`lemondb/storage.py`, insert path of `database.py`)

The database file is one JSON object: a `__version__` entry holding the
schema version list, and one entry per table mapping decimal-string
record ids to stored (typenized) records.  A `Fields` value plays the
role of that top-level object as well as of each table. -/

/-- Lexicographic comparison of character lists by code point —
Python's `str.__lt__`. -/
def listLtChar : List Char → List Char → Bool
  | [], [] => false
  | [], _ :: _ => true
  | _ :: _, [] => false
  | a :: as, b :: bs => if a < b then true else if b < a then false else listLtChar as bs

/-- Python `a < b` on strings (code-point lexicographic). -/
def pyStrLt (a b : String) : Bool := listLtChar a.data b.data

/-- Parse an unsigned decimal numeral. -/
def digitsToNatAux : List Char → Nat → Option Nat
  | [], acc => some acc
  | c :: cs, acc =>
    if c.isDigit then digitsToNatAux cs (acc * 10 + (c.toNat - 48)) else none

/-- Python `int(s)` restricted to plain decimal numerals (the only
shape record ids take); anything else is a `ValueError` (`none`). -/
def pyIntParse (s : String) : Option Nat :=
  match s.data with
  | [] => none
  | l => digitsToNatAux l 0

/-- `_increment_id(table)` of `storage.py`: `0` when the dict is empty,
otherwise `int(max(list(table.keys()))) + 1`.  After a JSON round trip
all keys are strings, and Python's `max` on strings compares
lexicographically (ties keep the earlier element); `int()` of a
non-numeric maximal key is a `ValueError`. -/
def _increment_id (table : Fields) : Except PyErr Nat :=
  match table with
  | [] => .ok 0
  | (k, _) :: rest =>
    match pyIntParse ((rest.map Prod.fst).foldl (fun a s => if pyStrLt a s then s else a) k) with
    | some n => .ok (n + 1)
    | none => .error .valueError

/-- `LemonDB.__read_table__`: the active table's raw value from a fresh
read, defaulting to the one-entry dict `{table_name: {}}` when the table
key is absent from the file. -/
def readTable (db : Fields) (tname : String) : PyVal :=
  match dictGet db tname with
  | some v => v
  | none => .vDict [(tname, .vDict [])]

/-- The id `insert` allocates on the default-table path:
`_increment_id` over `__read_table__()`.  `table.keys()` on a non-dict
entry is an `AttributeError`. -/
def insertAllocatedId (db : Fields) (tname : String) : Except PyErr Nat :=
  match readTable db tname with
  | .vDict fs => _increment_id fs
  | _ => .error .attributeError

/-- One default-table insert at the table level: `_increment` sets
`table[document_id] = item`, and the following whole-file JSON rewrite
turns the integer key into its decimal string, so the net transition is
an ordered update at key `toString id` (a duplicate string key keeps its
original position with the new value, as `json.load` does). -/
def lemonInsertTable (table : Fields) (item : PyVal) : Except PyErr (Nat × Fields) :=
  match _increment_id table with
  | .error e => .error e
  | .ok id => .ok (id, dictUpdate table (toString id) item)

/-- `LemonDB.insert` for a mapping item on the default-table path:
`typenize` mutates the caller's dict in place and `insert` returns that
same mutated object (`_item` aliases `item`); the typenized record is
stored under the allocated id and the whole file rewritten.  The result
pairs Python's return value with the new file contents. -/
def lemonInsert (db : Fields) (tname : String) (item : Fields) :
    Except PyErr (Fields × Fields) :=
  let titem := pyTypenize item
  match readTable db tname with
  | .vDict tbl =>
    match _increment_id tbl with
    | .error e => .error e
    | .ok id =>
      .ok (titem, dictUpdate db tname (.vDict (dictUpdate tbl (toString id) (.vDict titem))))
  | _ => .error .attributeError

/-- The table states and allocated ids of `n` successive default-table
inserts into an initially empty table (each insert re-reads the file,
so keys are decimal strings at every step).  The inserted record is a
fixed typenized one-field document; records are irrelevant to id
allocation. -/
def insertSeqAux : Nat → Fields → List Nat → (Fields × List Nat)
  | 0, t, acc => (t, acc.reverse)
  | n+1, t, acc =>
    match lemonInsertTable t (.vDict [("x", .vInt 1), ("$type", .vSeq [.vStr "int"])]) with
    | .error _ => (t, acc.reverse)
    | .ok (id, t₂) => insertSeqAux n t₂ (id :: acc)

/-- The ids allocated by `n` successive inserts into a fresh table. -/
def allocIds (n : Nat) : List Nat := (insertSeqAux n [] []).2

/-- A strictly increasing sequence of ids (claim-side notion). -/
def strictIncr : List Nat → Bool
  | [] => true
  | [_] => true
  | a :: b :: rest => a < b && strictIncr (b :: rest)

/-- Numeric value of the ids of a table (claim-side notion
`max(existing ids)` reads keys as numbers; a non-numeric key counts 0,
which never occurs in the claims' uses). -/
def maxNumericId (table : Fields) : Nat :=
  (table.map (fun p => (pyIntParse (Prod.fst p)).getD 0)).foldl max 0

/-- The ten decimal digit strings (for the single-digit-keys regime in
which lexicographic and numeric key maxima agree). -/
def digitStrings : List String :=
  ["0", "1", "2", "3", "4", "5", "6", "7", "8", "9"]

/-! ## Query evaluator (`lemondb/query.py`, search path of `database.py`) -/

/-- The comparison operators of the `ops` table.  `lemondb.constants`
is absent from the source tree; modelled from the spec: the fixed
operator table is `{==, !=, <, <=, >, >=}` mapped to Python's
comparison operators. -/
inductive CmpOp where
  | eq | ne | lt | le | gt | ge
  deriving DecidableEq

/-- Ordering comparison on integers. -/
def cmpNum (op : CmpOp) (a b : Int) : Bool :=
  match op with
  | .eq => a == b
  | .ne => a != b
  | .lt => a < b
  | .le => a ≤ b
  | .gt => a > b
  | .ge => a ≥ b

/-- Ordering comparison on strings (Python compares strings
lexicographically by code point, as Lean's `String` order does). -/
def cmpStr (op : CmpOp) (a b : String) : Bool :=
  match op with
  | .eq => a == b
  | .ne => a != b
  | .lt => pyStrLt a b
  | .le => !pyStrLt b a
  | .gt => pyStrLt b a
  | .ge => !pyStrLt a b

/-- `ops[op](x, y)`: `==`/`!=` are total structural equality; ordering
operators compare numbers with numbers (bools count as 0/1) and strings
with strings, and raise `TypeError` on any other combination.  Float
ordering is not modelled (bit-pattern carrier); no claim compares
floats. -/
def pyCmp : CmpOp → PyVal → PyVal → Except PyErr Bool
  | .eq, a, b => .ok (beqV a b)
  | .ne, a, b => .ok (!beqV a b)
  | op, .vInt a, .vInt b => .ok (cmpNum op a b)
  | op, .vInt a, .vBool b => .ok (cmpNum op a (if b then 1 else 0))
  | op, .vBool a, .vInt b => .ok (cmpNum op (if a then 1 else 0) b)
  | op, .vBool a, .vBool b => .ok (cmpNum op (if a then 1 else 0) (if b then 1 else 0))
  | op, .vStr a, .vStr b => .ok (cmpStr op a b)
  | _, _, _ => .error .typeError

/-- Python `str.lower()` (ASCII case folding suffices for the claims). -/
def pyLower (s : String) : String := ⟨s.data.map Char.toLower⟩

/-- Leftmost case-insensitive occurrence of a literal pattern: the
first position whose slice of the pattern's length matches it up to
case, returning the original slice. -/
def subSearch (pat : List Char) (s : List Char) : Option (List Char) :=
  if (s.take pat.length).map Char.toLower = pat.map Char.toLower then
    some (s.take pat.length)
  else
    match s with
    | [] => none
    | _ :: rest => subSearch pat rest

/-- `re.search(pat, s, re.IGNORECASE)` modelled for metacharacter-free
patterns, with `m.group()` as the matched substring in its original
casing. -/
def reSearchCI (pat s : String) : Option String :=
  (subSearch pat.data s.data).map (fun l => ⟨l⟩)

/-- The comparative-query wrapper `search` builds (database.py lines
841-852): `i[item]` subscripts the fed element with the field name —
a `TypeError` when the element is not a dict, a `KeyError` when the
field is absent; a textual operand is lowercased and pattern-searched
case-insensitively in the field value, the matched text replacing the
right-hand operand, the raw operand used when nothing matches;
`re.search` against a non-string field value is a `TypeError`. -/
def sqWrapper (op : CmpOp) (operand : PyVal) (field : String) (elt : PyVal) :
    Except PyErr Bool :=
  match elt with
  | .vDict fs =>
    match dictGet fs field with
    | none => .error .keyError
    | some fv =>
      match operand with
      | .vStr s =>
        match fv with
        | .vStr tv =>
          match reSearchCI (pyLower s) tv with
          | some mt => pyCmp op (.vStr tv) (.vStr mt)
          | none => pyCmp op (.vStr tv) (.vStr s)
        | _ => .error .typeError
      | _ => pyCmp op fv operand
  | _ => .error .typeError

/-- `Linq.where`: each element's predicate runs inside
`try/except Exception: pass` — an element whose evaluation raises any
exception is skipped and iteration continues with the rest. -/
def linqWhere {α : Type} (p : α → Except PyErr Bool) : List α → List α
  | [] => []
  | x :: xs =>
    match p x with
    | .ok true => x :: linqWhere p xs
    | _ => linqWhere p xs

/-- The query shapes `search` dispatches on: `None`, a dict, a
`SearchQuery` triple `(ops, key, item)` = (operator, operand, field
name), a predicate function, and a pattern string. -/
inductive PyQuery where
  | none
  | dict (q : Fields)
  | sq (op : CmpOp) (operand : PyVal) (field : String)
  | lam (p : PyVal → Except PyErr Bool)
  | re (pattern : String)

/-- What `search` returns: the bare `[]` of the empty-with-rate case, a
single record (`rate <= 1`), or a cursor (whose `all()` list this
carries; a rate slice is also a plain list, carried the same way). -/
inductive SResult where
  | pylist (l : List PyVal)
  | one (v : PyVal)
  | cursor (l : List PyVal)
  deriving DecidableEq

/-- The rate block `search` repeats verbatim in every branch:
`if rate and len(c) <= 0: return []`, `elif rate and rate <= 1:
c = c.all()[0]`, `elif rate: c = c.all()[:rate]`.  `rate=None` and
`rate=0` are both falsy and leave the cursor unbounded. -/
def rateBlock (rate : Option Int) (c : List PyVal) : SResult :=
  match rate with
  | Option.none => .cursor c
  | some r =>
    if r = 0 then .cursor c
    else
      match c with
      | [] => .pylist []
      | x :: xs => if r ≤ 1 then .one x else .cursor ((x :: xs).take r.toNat)

/-- `items(item=True)`: the record values of the active table in id
order. -/
def itemsItem (tbl : Fields) : List PyVal := tbl.map Prod.snd

/-- `items(dict=True)` (database.py lines 486-491): the comprehension
`_items = [{k:v} for k,v in v.items()]` is re-assigned once per record,
so the result is the single-binding field dicts of the LAST record (an
empty list for an empty table); `v.items()` on a non-dict record value
raises `AttributeError`. -/
def itemsDict : Fields → Except PyErr (List PyVal)
  | [] => .ok []
  | [(_, .vDict fs)] => .ok (fs.map (fun p => PyVal.vDict [p]))
  | (_, .vDict _) :: rest => itemsDict rest
  | (_, _) :: _ => .error .attributeError

/-- The `reconstructed_list` loop of `search`: flatten the values of
each element of `items(dict=True)`; `i.items()` on a non-dict element
raises `AttributeError`. -/
def reconstruct : List PyVal → Except PyErr (List PyVal)
  | [] => .ok []
  | .vDict fs :: rest =>
    match reconstruct rest with
    | .error e => .error e
    | .ok r => .ok (fs.map Prod.snd ++ r)
  | _ :: _ => .error .attributeError

/-- A value usable as a member of a Python `set` (only immutable values
hash; dicts and lists raise `TypeError`). -/
def pyHashable : PyVal → Bool
  | .vDict _ => false
  | .vSeq _ => false
  | _ => true

/-- The pairs of the query also present among the record's pairs —
`set(query).intersection(item)` is non-empty exactly when this list is. -/
def pairIntersect (q fs : Fields) : Fields :=
  q.filter (fun kv => fs.any (fun kv₂ => kv == kv₂))

/-- The dict-query branch of `search`: for each record of
`items(item=True)`, keep it when the set intersection of its pairs with
the query's pairs is non-empty.  Building the sets hashes every pair of
the query and of the record, so an unhashable (dict- or list-valued)
pair raises `TypeError`; a non-dict record raises `AttributeError` at
`i.items()`. -/
def dictFilter (q : Fields) : List PyVal → Except PyErr (List PyVal)
  | [] => .ok []
  | .vDict fs :: rest =>
    if q.all (fun kv => pyHashable kv.2) then
      if fs.all (fun kv => pyHashable kv.2) then
        match dictFilter q rest with
        | .error e => .error e
        | .ok r =>
          .ok (if (pairIntersect q fs).isEmpty then r else PyVal.vDict fs :: r)
      else .error .typeError
    else .error .typeError
  | _ :: _ => .error .attributeError

/-- Well-formed stored tables for the structural-query claim: every
record value is a dict all of whose field values are hashable. -/
def recordsWF (tbl : Fields) : Bool :=
  tbl.all (fun p => match p.2 with
    | .vDict fs => fs.all (fun kv => pyHashable kv.2)
    | _ => false)

/-- `iterate_dict`: the non-dict leaf values of a nested dict,
depth-first in field order. -/
def iterateDict : Fields → List PyVal
  | [] => []
  | (_, .vDict nfs) :: rest => iterateDict nfs ++ iterateDict rest
  | (_, v) :: rest => v :: iterateDict rest

/-- Python `str()` as applied to record leaves by the pattern-query
walk.  Only string leaves matter to the claims; the renderings of the
other carriers are distinct placeholders, not Python's exact text. -/
def pyStr : PyVal → String
  | .vStr s => s
  | .vInt n => toString n
  | .vBool true => "True"
  | .vBool false => "False"
  | .vNone => "None"
  | .vFloat bits => "float:" ++ toString bits
  | .vBytes s => "bytes:" ++ s
  | .vDatetime iso => iso
  | .vDict _ => "dict"
  | .vSeq _ => "list"

/-- The pattern-query scan over the pairs of one `items(dict=True)`
element: each value must be a dict (`iterate_dict` of anything else
raises `AttributeError` at its first yield); the value is appended once
per leaf whose string form matches the pattern case-insensitively. -/
def reScanPairs (pattern : String) : Fields → Except PyErr (List PyVal)
  | [] => .ok []
  | (_, .vDict nfs) :: rest =>
    match reScanPairs pattern rest with
    | .error e => .error e
    | .ok r =>
      .ok ((iterateDict nfs).foldl (fun acc rv =>
        match reSearchCI pattern (pyStr rv) with
        | some _ => acc ++ [PyVal.vDict nfs]
        | Option.none => acc) [] ++ r)
  | (_, _) :: _ => .error .attributeError

/-- The pattern-query branch over all `items(dict=True)` elements. -/
def reResultItems (pattern : String) : List PyVal → Except PyErr (List PyVal)
  | [] => .ok []
  | .vDict fs :: rest =>
    match reScanPairs pattern fs with
    | .error e => .error e
    | .ok r₁ =>
      match reResultItems pattern rest with
      | .error e => .error e
      | .ok r₂ => .ok (r₁ ++ r₂)
  | _ :: _ => .error .attributeError

/-- `LemonDB.search` over the decoded active table, following the
source's branch order: `items(dict=True)` is computed before any
branching; falsy queries (`None`, `{}`, `""`) take the identity branch
over `items(item=True)`; a dict query filters `items(item=True)` by
pair intersection; the comparative, predicate and pattern branches run
over the reconstructed field values of `items(dict=True)`.  Each branch
ends in the (source-repeated) rate block. -/
def lemonSearch (q : PyQuery) (tbl : Fields) (rate : Option Int) :
    Except PyErr SResult :=
  match itemsDict tbl with
  | .error e => .error e
  | .ok items =>
    match q with
    | .none => .ok (rateBlock rate (itemsItem tbl))
    | .dict [] => .ok (rateBlock rate (itemsItem tbl))
    | .re "" => .ok (rateBlock rate (itemsItem tbl))
    | .dict q =>
      match dictFilter q (itemsItem tbl) with
      | .error e => .error e
      | .ok c => .ok (rateBlock rate c)
    | .sq op operand field =>
      match reconstruct items with
      | .error e => .error e
      | .ok recon => .ok (rateBlock rate (linqWhere (sqWrapper op operand field) recon))
    | .lam p =>
      match reconstruct items with
      | .error e => .error e
      | .ok recon => .ok (rateBlock rate (linqWhere p recon))
    | .re pattern =>
      match reResultItems pattern items with
      | .error e => .error e
      | .ok result => .ok (rateBlock rate result)

/-- The materialized filter result of each query mode before the rate
bound — the claim-side "filtered result" that the rate semantics is
applied to. -/
def searchFiltered (q : PyQuery) (tbl : Fields) : Except PyErr (List PyVal) :=
  match itemsDict tbl with
  | .error e => .error e
  | .ok items =>
    match q with
    | .none => .ok (itemsItem tbl)
    | .dict [] => .ok (itemsItem tbl)
    | .re "" => .ok (itemsItem tbl)
    | .dict q => dictFilter q (itemsItem tbl)
    | .sq op operand field =>
      (reconstruct items).map (linqWhere (sqWrapper op operand field))
    | .lam p => (reconstruct items).map (linqWhere p)
    | .re pattern => reResultItems pattern items

/-! ## Update and delete (`database.py`, `middleware/json.py`) -/

/-- Decode one table in place: `read(True)` runs `untypenize` over every
record value (`.pop` on a non-dict record raises `TypeError`). -/
def decodeTable : Fields → Except PyErr Fields
  | [] => .ok []
  | (id, .vDict rec) :: rest =>
    match pyUntypenize rec with
    | .error e => .error e
    | .ok rec₂ =>
      match decodeTable rest with
      | .error e => .error e
      | .ok r => .ok ((id, PyVal.vDict rec₂) :: r)
  | (_, _) :: _ => .error .typeError

/-- `LemonStorage.read(_untypenize=True)`: decode every record of every
dict entry; list entries (the version stamp) are skipped
("Ignore the version"). -/
def storageRead : Fields → Except PyErr Fields
  | [] => .ok []
  | (k, .vDict tbl) :: rest =>
    match decodeTable tbl with
    | .error e => .error e
    | .ok tbl₂ =>
      match storageRead rest with
      | .error e => .error e
      | .ok r => .ok ((k, PyVal.vDict tbl₂) :: r)
  | (k, v) :: rest =>
    match storageRead rest with
    | .error e => .error e
    | .ok r => .ok ((k, v) :: r)

/-- Python truthiness of what `search` returned (`if not result:`) — a
cursor defines `__len__`, so an empty cursor is falsy; so are `[]` and
an empty record. -/
def sresTruthy : SResult → Bool
  | .pylist l => !l.isEmpty
  | .one v => pyTruthy v
  | .cursor l => !l.isEmpty

/-- Merge the bindings of the second dict into the first
(`dict.update`). -/
def dictMerge (a b : Fields) : Fields :=
  b.foldl (fun acc kv => dictUpdate acc kv.1 kv.2) a

/-- The record scan of `update`'s success path over one table: each
record is decoded in place (`untypenize(v)` pops its `$type`); on
equality with the search result the typenized patch is merged into the
decoded record and the scan of this table stops (`break`), leaving the
remaining records raw. -/
def updateScanTable (result : PyVal) (titem : Fields) : Fields → Except PyErr Fields
  | [] => .ok []
  | (id, .vDict rec) :: rest =>
    match pyUntypenize rec with
    | .error e => .error e
    | .ok dec =>
      if PyVal.vDict dec == result then
        .ok ((id, PyVal.vDict (dictMerge dec (pyTypenize titem))) :: rest)
      else
        match updateScanTable result titem rest with
        | .error e => .error e
        | .ok r => .ok ((id, PyVal.vDict dec) :: r)
  | (_, _) :: _ => .error .typeError

/-- The table scan of `update`'s success path (database.py lines
705-712): every top-level entry of the raw file is visited in order;
`value.items()` raises `AttributeError` on a non-dict entry — the
`__version__` list every `_init_db` database starts with. -/
def updateScan (result : PyVal) (titem : Fields) : Fields → Except PyErr Fields
  | [] => .ok []
  | (k, .vDict tbl) :: rest =>
    match updateScanTable result titem tbl with
    | .error e => .error e
    | .ok tbl₂ =>
      match updateScan result titem rest with
      | .error e => .error e
      | .ok r => .ok ((k, PyVal.vDict tbl₂) :: r)
  | (_, _) :: _ => .error .attributeError

/-- `LemonDB.update`: `find_one(query)` first (a read-only search over
the decoded file); a falsy result raises `SearchQueryError` — the
missing `lemondb.errors` module's class, the spec's `NotFound` — before
the merge scan or any write; otherwise the raw file is scanned, merged
and written once with mode `w`.  The second component lists the file
writes the call performed. -/
def lemonUpdate (db : Fields) (tname : String) (q : PyQuery) (item : Fields) :
    (Except PyErr PyVal) × List Fields :=
  match storageRead db with
  | .error e => (.error e, [])
  | .ok decoded =>
    match dictGet decoded tname with
    | some (.vDict fs) =>
      match lemonSearch q fs (some 1) with
      | .error e => (.error e, [])
      | .ok res =>
        if sresTruthy res = false then (.error .searchQueryError, [])
        else
          match res with
          | .one r =>
            match updateScan r item db with
            | .error e => (.error e, [])
            | .ok db₂ => (.ok (.vDict item), [db₂])
          | _ =>
            match updateScan (.vNone) item db with
            | .error e => (.error e, [])
            | .ok db₂ => (.ok (.vDict item), [db₂])
    | _ => (.error .attributeError, [])

/-- What `LemonDB.delete` hands to the middleware: a literal mapping or
the first search hit (a record), a tuple/list, or a `LemonCursor`
(which is neither a tuple/list nor equal to any dict). -/
inductive DelKey where
  | recKey (v : PyVal)
  | listKey (l : List PyVal)
  | cursorKey (l : List PyVal)

/-- The per-table scan of `JsonMiddleware.delete`: a list key deletes
every member record; a record key deletes every equal record when
`all`, else the first equal record (`break` leaves this table's loop);
a cursor key matches nothing. -/
def deleteScanTable (key : DelKey) (all : Bool) : Fields → Fields
  | [] => []
  | (k, v) :: rest =>
    match key with
    | .recKey r =>
      if r == v then
        (if all then deleteScanTable key all rest else rest)
      else (k, v) :: deleteScanTable key all rest
    | .listKey l =>
      if l.any (fun x => x == v) then deleteScanTable key all rest
      else (k, v) :: deleteScanTable key all rest
    | .cursorKey _ => (k, v) :: deleteScanTable key all rest

/-- `JsonMiddleware.delete`: read the raw file, scan every top-level
entry and rewrite the whole file.  `value.items()` raises
`AttributeError` on a non-dict entry — the `__version__` list entry
every `_init_db` database starts with — before any deletion or write. -/
def jsonMidDelete (db : Fields) (key : DelKey) (all : Bool) : Except PyErr Fields :=
  match db with
  | [] => .ok []
  | (t, .vDict tbl) :: rest =>
    match jsonMidDelete rest key all with
    | .error e => .error e
    | .ok r => .ok ((t, PyVal.vDict (deleteScanTable key all tbl)) :: r)
  | (_, _) :: _ => .error .attributeError

/-- The argument `LemonDB.delete` receives: a literal mapping or a
query. -/
inductive DelArg where
  | mapping (r : Fields)
  | query (q : PyQuery)

/-- `LemonDB.delete`: a mapping goes straight to the middleware; a
query is resolved by `search` first — with `all=True` the cursor object
itself is handed to the middleware, with `all=False` its first element
(`IndexError` on an empty result is caught and the call returns
`None`).  The second component lists the file writes performed. -/
def lemonDelete (db : Fields) (tname : String) (arg : DelArg) (all : Bool) :
    (Except PyErr (Option PyVal)) × List Fields :=
  match arg with
  | .mapping r =>
    match jsonMidDelete db (.recKey (.vDict r)) all with
    | .error e => (.error e, [])
    | .ok db₂ => (.ok (some (.vDict r)), [db₂])
  | .query q =>
    match storageRead db with
    | .error e => (.error e, [])
    | .ok decoded =>
      match dictGet decoded tname with
      | some (.vDict fs) =>
        match lemonSearch q fs Option.none with
        | .error e => (.error e, [])
        | .ok res =>
          match res with
          | .cursor l =>
            if all then
              match jsonMidDelete db (.cursorKey l) true with
              | .error e => (.error e, [])
              | .ok db₂ => (.ok (some (.vSeq l)), [db₂])
            else
              match l with
              | [] => (.ok Option.none, [])
              | x :: _ =>
                match jsonMidDelete db (.recKey x) false with
                | .error e => (.error e, [])
                | .ok db₂ => (.ok (some x), [db₂])
          | .pylist l =>
            if all then
              match jsonMidDelete db (.listKey l) true with
              | .error e => (.error e, [])
              | .ok db₂ => (.ok (some (.vSeq l)), [db₂])
            else
              match l with
              | [] => (.ok Option.none, [])
              | x :: _ =>
                match jsonMidDelete db (.recKey x) false with
                | .error e => (.error e, [])
                | .ok db₂ => (.ok (some x), [db₂])
          | .one r =>
            match jsonMidDelete db (.recKey r) all with
            | .error e => (.error e, [])
            | .ok db₂ => (.ok (some r), [db₂])
      | _ => (.error .attributeError, [])

end LemonDB

namespace LemonDB

/-! # Verification

Supporting lemmas first, then one theorem per specification claim
(with its witness or counterexample where applicable). -/

/-! ## Dictionary lemmas -/

theorem dictRemoveKey_of_not_mem (fs : Fields) (k : String)
    (h : k ∉ fs.map Prod.fst) : dictRemoveKey fs k = fs := by
  induction fs with
  | nil => simp [dictRemoveKey]
  | cons p rest ih =>
    obtain ⟨k₀, v₀⟩ := p
    rw [List.map_cons, List.mem_cons] at h
    push_neg at h
    simp [dictRemoveKey, Ne.symm h.1, ih h.2]

theorem dictUpdate_of_not_mem (fs : Fields) (k : String) (v : PyVal)
    (h : k ∉ fs.map Prod.fst) : dictUpdate fs k v = fs ++ [(k, v)] := by
  induction fs with
  | nil => simp [dictUpdate]
  | cons p rest ih =>
    obtain ⟨k₀, v₀⟩ := p
    rw [List.map_cons, List.mem_cons] at h
    push_neg at h
    simp [dictUpdate, Ne.symm h.1, ih h.2]

theorem dictGet_append_of_not_mem (fs : Fields) (k : String) (v : PyVal)
    (h : k ∉ fs.map Prod.fst) : dictGet (fs ++ [(k, v)]) k = some v := by
  induction fs with
  | nil => simp [dictGet]
  | cons p rest ih =>
    obtain ⟨k₀, v₀⟩ := p
    rw [List.map_cons, List.mem_cons] at h
    push_neg at h
    simp [dictGet, Ne.symm h.1, ih h.2]

theorem dictRemoveKey_append_of_not_mem (fs : Fields) (k : String) (v : PyVal)
    (h : k ∉ fs.map Prod.fst) : dictRemoveKey (fs ++ [(k, v)]) k = fs := by
  induction fs with
  | nil => simp [dictRemoveKey]
  | cons p rest ih =>
    obtain ⟨k₀, v₀⟩ := p
    rw [List.map_cons, List.mem_cons] at h
    push_neg at h
    simp [dictRemoveKey, Ne.symm h.1, ih h.2]

/-! ## Codec round trip -/

theorem pyTypenizeAux_keys (fs : Fields) : ∀ (st : List PyVal),
    (pyTypenizeAux fs st).1.map Prod.fst = fs.map Prod.fst := by
  induction fs with
  | nil => intro st; simp [pyTypenizeAux]
  | cons p rest ih =>
    intro st
    obtain ⟨k, v⟩ := p
    cases v <;> simp [pyTypenizeAux, ih]

theorem goodFields_not_mem_stype (fs : Fields) (h : goodFields fs = true) :
    "$type" ∉ fs.map Prod.fst := by
  induction fs with
  | nil => simp
  | cons p rest ih =>
    obtain ⟨k, v⟩ := p
    rw [List.map_cons, List.mem_cons]
    push_neg
    cases v <;> simp only [goodFields, Bool.and_eq_true, bne_iff_ne] at h <;>
      exact ⟨Ne.symm h.1.1, ih h.2⟩

theorem pyTypenizeAux_len : (fs : Fields) → goodFields fs = true → ∀ (st : List PyVal),
    (pyTypenizeAux fs st).2.length = fs.length
  | [], _, st => by simp [pyTypenizeAux]
  | (k, .vDict nfs) :: rest, h, st => by
    simp only [goodFields, Bool.and_eq_true, bne_iff_ne, Bool.not_eq_true'] at h
    obtain ⟨⟨-, hne, hgnfs⟩, hrest⟩ := h
    have hinner := pyTypenizeAux_len nfs hgnfs []
    have htail := pyTypenizeAux_len rest hrest (pyTypenizeAux nfs []).2
    have hinnerne : (pyTypenizeAux nfs []).2.isEmpty = false := by
      cases hE : (pyTypenizeAux nfs []).2 with
      | nil =>
        rw [hE] at hinner
        cases nfs with
        | nil => simp at hne
        | cons a t => simp at hinner
      | cons a t => rfl
    simp [pyTypenizeAux, hinnerne, htail]
  | (k, .vSeq xs) :: rest, h, st => by
    simp [goodFields] at h
  | (k, .vNone) :: rest, h, st => by
    simp only [goodFields, Bool.and_eq_true] at h
    simp [pyTypenizeAux, typeTag, pyTypenizeAux_len rest h.2 st]
  | (k, .vBool b) :: rest, h, st => by
    simp only [goodFields, Bool.and_eq_true] at h
    simp [pyTypenizeAux, typeTag, pyTypenizeAux_len rest h.2 st]
  | (k, .vInt n) :: rest, h, st => by
    simp only [goodFields, Bool.and_eq_true] at h
    simp [pyTypenizeAux, typeTag, pyTypenizeAux_len rest h.2 st]
  | (k, .vFloat x) :: rest, h, st => by
    simp only [goodFields, Bool.and_eq_true] at h
    simp [pyTypenizeAux, typeTag, pyTypenizeAux_len rest h.2 st]
  | (k, .vStr s) :: rest, h, st => by
    simp only [goodFields, Bool.and_eq_true] at h
    simp [pyTypenizeAux, typeTag, pyTypenizeAux_len rest h.2 st]
  | (k, .vBytes s) :: rest, h, st => by
    simp only [goodFields, Bool.and_eq_true] at h
    simp [pyTypenizeAux, typeTag, pyTypenizeAux_len rest h.2 st]
  | (k, .vDatetime s) :: rest, h, st => by
    simp only [goodFields, Bool.and_eq_true] at h
    simp [pyTypenizeAux, typeTag, pyTypenizeAux_len rest h.2 st]
termination_by fs => sizeOf fs

theorem untypenize_typenizeAux : (fs : Fields) → goodFields fs = true → ∀ (st : List PyVal),
    untypenizeFields (pyTypenizeAux fs st).1 (pyTypenizeAux fs st).2 = .ok fs
  | [], _, st => by simp [pyTypenizeAux, untypenizeFields]
  | (k, .vDict nfs) :: rest, h, st => by
    simp only [goodFields, Bool.and_eq_true, bne_iff_ne, Bool.not_eq_true'] at h
    obtain ⟨⟨-, hne, hgnfs⟩, hrest⟩ := h
    have hlen := pyTypenizeAux_len nfs hgnfs []
    have hinnerne : (pyTypenizeAux nfs []).2.isEmpty = false := by
      cases hE : (pyTypenizeAux nfs []).2 with
      | nil =>
        rw [hE] at hlen
        cases nfs with
        | nil => simp at hne
        | cons a t => simp at hlen
      | cons a t => rfl
    have hinner := untypenize_typenizeAux nfs hgnfs []
    have htail := untypenize_typenizeAux rest hrest (pyTypenizeAux nfs []).2
    have hkeys : "$type" ∉ (pyTypenizeAux nfs []).1.map Prod.fst := by
      rw [pyTypenizeAux_keys]
      exact goodFields_not_mem_stype nfs hgnfs
    simp [pyTypenizeAux, hinnerne, untypenizeFields,
      dictRemoveKey_of_not_mem _ _ hkeys, hinner, htail]
  | (k, .vSeq xs) :: rest, h, st => by
    simp [goodFields] at h
  | (k, .vNone) :: rest, h, st => by
    simp only [goodFields, Bool.and_eq_true] at h
    have htail := untypenize_typenizeAux rest h.2 st
    simp [pyTypenizeAux, typeTag, convertLeaf, untypenizeFields, invTypeTag,
      applyType, htail]
  | (k, .vBool b) :: rest, h, st => by
    simp only [goodFields, Bool.and_eq_true] at h
    have htail := untypenize_typenizeAux rest h.2 st
    simp [pyTypenizeAux, typeTag, convertLeaf, untypenizeFields, invTypeTag,
      applyType, pyTruthy, htail]
  | (k, .vInt n) :: rest, h, st => by
    simp only [goodFields, Bool.and_eq_true] at h
    have htail := untypenize_typenizeAux rest h.2 st
    simp [pyTypenizeAux, typeTag, convertLeaf, untypenizeFields, invTypeTag,
      applyType, htail]
  | (k, .vFloat x) :: rest, h, st => by
    simp only [goodFields, Bool.and_eq_true] at h
    have htail := untypenize_typenizeAux rest h.2 st
    simp [pyTypenizeAux, typeTag, convertLeaf, untypenizeFields, invTypeTag,
      applyType, htail]
  | (k, .vStr s) :: rest, h, st => by
    simp only [goodFields, Bool.and_eq_true] at h
    have htail := untypenize_typenizeAux rest h.2 st
    simp [pyTypenizeAux, typeTag, convertLeaf, untypenizeFields, invTypeTag,
      applyType, htail]
  | (k, .vBytes s) :: rest, h, st => by
    simp only [goodFields, Bool.and_eq_true] at h
    have htail := untypenize_typenizeAux rest h.2 st
    simp [pyTypenizeAux, typeTag, convertLeaf, untypenizeFields, invTypeTag,
      applyType, htail]
  | (k, .vDatetime s) :: rest, h, st => by
    simp only [goodFields, Bool.and_eq_true] at h
    have htail := untypenize_typenizeAux rest h.2 st
    simp [pyTypenizeAux, typeTag, convertLeaf, untypenizeFields, invTypeTag,
      applyType, htail]
termination_by fs => sizeOf fs

theorem codec_roundtrip (fs : Fields) (h : goodFields fs = true) :
    pyUntypenize (pyTypenize fs) = .ok fs := by
  have hkeys : "$type" ∉ (pyTypenizeAux fs []).1.map Prod.fst := by
    rw [pyTypenizeAux_keys]
    exact goodFields_not_mem_stype fs h
  have hupd := dictUpdate_of_not_mem (pyTypenizeAux fs []).1 "$type"
    (.vSeq (pyTypenizeAux fs []).2) hkeys
  have hget := dictGet_append_of_not_mem (pyTypenizeAux fs []).1 "$type"
    (.vSeq (pyTypenizeAux fs []).2) hkeys
  have hrem := dictRemoveKey_append_of_not_mem (pyTypenizeAux fs []).1 "$type"
    (.vSeq (pyTypenizeAux fs []).2) hkeys
  simp [pyTypenize, pyUntypenize, dictPop, hupd, hget, hrem,
    untypenize_typenizeAux fs h []]

/-- C1, corrected, amended claim: decoding the encoded form reproduces
the original, `untypenize (typenize r) = r`, for every record whose
leaf values are of a supported type (boolean, integer, float, string,
binary, timestamp, null), whose fields are not named `$type`, and in
which every nested record — at any depth — is non-empty, i.e. produces
a non-empty manifest.  (The original claim, quantified over records
including empty nested ones, fails: a nested record with an empty
manifest contributes no manifest entry, so the decode zip misaligns —
see the counterexample.) -/
theorem C1_codec_roundtrip (fs : Fields) (h : goodFields fs = true) :
    pyUntypenize (pyTypenize fs) = .ok fs :=
  codec_roundtrip fs h

/-- C1 witness: a concrete record containing every supported leaf type
and a nested record round-trips exactly. -/
theorem C1_codec_roundtrip_witness :
    goodFields [("n", PyVal.vNone), ("b", PyVal.vBool true), ("i", PyVal.vInt 7),
      ("f", PyVal.vFloat 123), ("s", PyVal.vStr "hi"), ("y", PyVal.vBytes "abc"),
      ("d", PyVal.vDatetime "2021-01-01T00:00:00"),
      ("m", PyVal.vDict [("x", PyVal.vInt 1),
        ("z", PyVal.vDict [("q", PyVal.vBytes "qq")])])] = true ∧
    pyUntypenize (pyTypenize [("n", PyVal.vNone), ("b", PyVal.vBool true),
      ("i", PyVal.vInt 7), ("f", PyVal.vFloat 123), ("s", PyVal.vStr "hi"),
      ("y", PyVal.vBytes "abc"), ("d", PyVal.vDatetime "2021-01-01T00:00:00"),
      ("m", PyVal.vDict [("x", PyVal.vInt 1),
        ("z", PyVal.vDict [("q", PyVal.vBytes "qq")])])])
      = .ok [("n", PyVal.vNone), ("b", PyVal.vBool true), ("i", PyVal.vInt 7),
      ("f", PyVal.vFloat 123), ("s", PyVal.vStr "hi"), ("y", PyVal.vBytes "abc"),
      ("d", PyVal.vDatetime "2021-01-01T00:00:00"),
      ("m", PyVal.vDict [("x", PyVal.vInt 1),
        ("z", PyVal.vDict [("q", PyVal.vBytes "qq")])])] := by
  have hg : goodFields [("n", PyVal.vNone), ("b", PyVal.vBool true), ("i", PyVal.vInt 7),
      ("f", PyVal.vFloat 123), ("s", PyVal.vStr "hi"), ("y", PyVal.vBytes "abc"),
      ("d", PyVal.vDatetime "2021-01-01T00:00:00"),
      ("m", PyVal.vDict [("x", PyVal.vInt 1),
        ("z", PyVal.vDict [("q", PyVal.vBytes "qq")])])] = true := by
    simp [goodFields]
  exact ⟨hg, C1_codec_roundtrip _ hg⟩

/-- C1 counterexample to the claim as stated: the record
`{"a": {}, "b": 1}` has only supported leaf values, yet decoding its
encoded form raises `TypeError` instead of reproducing it — the empty
nested record contributed no manifest entry, so the decode zip pairs
the integer tag with the dict field and calls `int({})`. -/
theorem C1_codec_roundtrip_counterexample :
    pyUntypenize (pyTypenize [("a", PyVal.vDict []), ("b", PyVal.vInt 1)])
      = .error .typeError ∧
    pyUntypenize (pyTypenize [("a", PyVal.vDict []), ("b", PyVal.vInt 1)])
      ≠ .ok [("a", PyVal.vDict []), ("b", PyVal.vInt 1)] := by
  have h : pyUntypenize (pyTypenize [("a", PyVal.vDict []), ("b", PyVal.vInt 1)])
      = .error .typeError := by
    simp [pyTypenize, pyTypenizeAux, typeTag, pyUntypenize, dictUpdate, dictPop,
      dictGet, dictRemoveKey, untypenizeFields, invTypeTag, applyType, convertLeaf]
  refine ⟨h, ?_⟩
  rw [h]
  simp

end LemonDB

namespace LemonDB

/-! ## Insert id allocation -/

theorem digit_lex_max (a b : String) (ha : a ∈ digitStrings) (hb : b ∈ digitStrings) :
    ((if pyStrLt a b then b else a) ∈ digitStrings) ∧
    (pyIntParse (if pyStrLt a b then b else a)).getD 0
      = max ((pyIntParse a).getD 0) ((pyIntParse b).getD 0) := by
  fin_cases ha <;> fin_cases hb <;> decide

theorem digit_parse_isSome (a : String) (ha : a ∈ digitStrings) :
    pyIntParse a = some ((pyIntParse a).getD 0) := by
  fin_cases ha <;> decide

theorem foldl_digit_max (ks : List String) : ∀ (k : String), k ∈ digitStrings →
    (∀ s ∈ ks, s ∈ digitStrings) →
    ((ks.foldl (fun a s => if pyStrLt a s then s else a) k) ∈ digitStrings ∧
     (pyIntParse (ks.foldl (fun a s => if pyStrLt a s then s else a) k)).getD 0
       = ks.foldl (fun acc s => max acc ((pyIntParse s).getD 0)) ((pyIntParse k).getD 0)) := by
  induction ks with
  | nil => intro k hk _; exact ⟨hk, rfl⟩
  | cons s ks ih =>
    intro k hk hks
    have hs : s ∈ digitStrings := hks s (by simp)
    have hstep := digit_lex_max k s hk hs
    have hrec := ih (if pyStrLt k s then s else k) hstep.1 (fun x hx => hks x (by simp [hx]))
    refine ⟨by simpa [List.foldl] using hrec.1, ?_⟩
    simp only [List.foldl]
    rw [hrec.2, hstep.2]

/-- C2, corrected, amended claim: the id `insert` allocates for the
active table is `0` when the table entry is empty; when the table entry
is non-empty it is `1 + int(m)` where `m` is the LEXICOGRAPHICALLY
greatest key — which agrees with `1 + max(existing ids)` whenever all
existing ids are single-digit; and when the table entry is absent,
`insert` does not create it with id `0` but scans the default dict
`{table_name: {}}` and raises `ValueError` from `int(table_name)`.
(The original claim's `1 + max(existing ids)` fails once a table holds
ids whose decimal strings order differently from their values — see the
counterexample — and absent tables raise instead of allocating 0.) -/
theorem C2_insert_id_allocation (db : Fields) (tname : String) :
    (dictGet db tname = some (.vDict []) → insertAllocatedId db tname = .ok 0) ∧
    (∀ table k₀ v₀ rest n, dictGet db tname = some (.vDict table) →
      table = (k₀, v₀) :: rest →
      pyIntParse ((rest.map Prod.fst).foldl (fun a s => if pyStrLt a s then s else a) k₀)
        = some n →
      insertAllocatedId db tname = .ok (n + 1)) ∧
    (∀ table, dictGet db tname = some (.vDict table) → table ≠ [] →
      (∀ k ∈ table.map Prod.fst, k ∈ digitStrings) →
      insertAllocatedId db tname = .ok (maxNumericId table + 1)) ∧
    (dictGet db tname = none → pyIntParse tname = none →
      insertAllocatedId db tname = .error .valueError) := by
  refine ⟨?_, ?_, ?_, ?_⟩
  · intro h
    simp [insertAllocatedId, readTable, h, _increment_id]
  · intro table k₀ v₀ rest n hget htab hparse
    subst htab
    simp [insertAllocatedId, readTable, hget, _increment_id, hparse]
  · intro table hget hne hdig
    obtain ⟨p, rest, rfl⟩ := List.exists_cons_of_ne_nil hne
    obtain ⟨k₀, v₀⟩ := p
    have hk0 : k₀ ∈ digitStrings := hdig k₀ (by simp)
    have hrest : ∀ s ∈ rest.map Prod.fst, s ∈ digitStrings :=
      fun s hs => hdig s (by simp [hs])
    have hf := foldl_digit_max (rest.map Prod.fst) k₀ hk0 hrest
    have hsome := digit_parse_isSome _ hf.1
    have hmax : maxNumericId ((k₀, v₀) :: rest)
        = (rest.map Prod.fst).foldl (fun acc s => max acc ((pyIntParse s).getD 0))
            ((pyIntParse k₀).getD 0) := by
      simp only [maxNumericId, List.map_cons, List.foldl_cons, List.foldl_map, Nat.zero_max]
    have hkey : pyIntParse ((rest.map Prod.fst).foldl
        (fun a s => if pyStrLt a s then s else a) k₀)
        = some (maxNumericId ((k₀, v₀) :: rest)) := by
      rw [hsome, hf.2, hmax]
    simp [insertAllocatedId, readTable, hget, _increment_id, hkey]
  · intro hnone hparse
    simp [insertAllocatedId, readTable, hnone, _increment_id, hparse]

/-- C2 witness: on a table with ids 0 and 3 (single-digit keys) the
allocation is `1 + max(ids) = 4`. -/
theorem C2_insert_id_allocation_witness :
    insertAllocatedId
      [("__version__", PyVal.vSeq [.vInt 1, .vInt 0, .vInt 0]),
       ("_table", PyVal.vDict [("0", PyVal.vDict []), ("3", PyVal.vDict [])])] "_table"
      = .ok (maxNumericId [("0", PyVal.vDict []), ("3", PyVal.vDict [])] + 1) :=
  (C2_insert_id_allocation _ "_table").2.2.1 _ (by decide) (by decide) (by decide)

/-- C2 counterexample to the claim as stated: on a table with ids 9 and
10 the lexicographically greatest key is "9", so insert allocates
`int("9") + 1 = 10` — colliding with the existing id 10 — while
`1 + max(existing ids)` is 11. -/
theorem C2_insert_id_allocation_counterexample :
    insertAllocatedId
      [("__version__", PyVal.vSeq [.vInt 1, .vInt 0, .vInt 0]),
       ("_table", PyVal.vDict [("9", PyVal.vDict []), ("10", PyVal.vDict [])])] "_table"
      = .ok 10 ∧
    maxNumericId [("9", PyVal.vDict []), ("10", PyVal.vDict [])] + 1 = 11 ∧
    insertAllocatedId
      [("__version__", PyVal.vSeq [.vInt 1, .vInt 0, .vInt 0]),
       ("_table", PyVal.vDict [("9", PyVal.vDict []), ("10", PyVal.vDict [])])] "_table"
      ≠ .ok (maxNumericId [("9", PyVal.vDict []), ("10", PyVal.vDict [])] + 1) := by
  decide

/-! ## Id monotonicity -/

/-- C3, corrected, amended claim: for insert-only runs into a fresh
table, the first (up to) 11 allocated ids are exactly `0, 1, …, n-1` —
strictly increasing from 0.  (The original claim over ALL insert
sequences fails: the 12th insert re-allocates id 10, because the
lexicographic key scan caps at "9" — see the counterexample.  Deletes
cannot even intervene: every `delete` raises `AttributeError` on the
version entry, see C7; and were the scan reached, removing the
greatest-id record would make `1 + int(max(keys))` reuse its id.) -/
theorem C3_id_monotonicity (n : Nat) (h : n ≤ 11) :
    allocIds n = List.range n ∧ strictIncr (allocIds n) = true := by
  have hall : (List.range 12).all
      (fun m => decide (allocIds m = List.range m) && strictIncr (allocIds m)) = true := by
    decide
  have hm : n ∈ List.range 12 := List.mem_range.mpr (by omega)
  have h₂ := List.all_eq_true.mp hall n hm
  simp only [Bool.and_eq_true, decide_eq_true_eq] at h₂
  exact ⟨h₂.1, h₂.2⟩

/-- C3 witness: eleven successive inserts allocate 0 through 10,
strictly increasing. -/
theorem C3_id_monotonicity_witness :
    allocIds 11 = List.range 11 ∧ strictIncr (allocIds 11) = true :=
  C3_id_monotonicity 11 (by decide)

/-- C3 counterexample to the claim as stated: an insert-only sequence
of 12 inserts allocates `0,…,9,10,10` — the 12th insert repeats id 10
(overwriting the record stored there), so the allocated ids are not
strictly increasing. -/
theorem C3_id_monotonicity_counterexample :
    allocIds 12 = [0, 1, 2, 3, 4, 5, 6, 7, 8, 9, 10, 10] ∧
    strictIncr (allocIds 12) = false := by
  decide

end LemonDB

namespace LemonDB

/-! ## Structural (dict) query semantics -/

theorem itemsDict_ok (tbl : Fields) (h : recordsWF tbl = true) :
    ∃ items, itemsDict tbl = .ok items := by
  induction tbl with
  | nil => exact ⟨[], rfl⟩
  | cons p rest ih =>
    obtain ⟨k, v⟩ := p
    simp only [recordsWF, List.all_cons, Bool.and_eq_true] at h
    obtain ⟨hv, hrest⟩ := h
    match v, hv with
    | .vDict fs, _ =>
      cases rest with
      | nil => exact ⟨fs.map (fun p => PyVal.vDict [p]), rfl⟩
      | cons p₂ r₂ =>
        obtain ⟨items, hi⟩ := ih hrest
        exact ⟨items, by simpa [itemsDict] using hi⟩

theorem pairIntersect_isEmpty_false (q fs : Fields) :
    (pairIntersect q fs).isEmpty = false ↔ ∃ kv ∈ q, kv ∈ fs := by
  rw [List.isEmpty_eq_false_iff_exists_mem]
  constructor
  · rintro ⟨kv, hkv⟩
    simp only [pairIntersect, List.mem_filter, List.any_eq_true, beq_iff_eq] at hkv
    obtain ⟨hq, kv₂, hmem, heq⟩ := hkv
    exact ⟨kv, hq, heq ▸ hmem⟩
  · rintro ⟨kv, hq, hfs⟩
    refine ⟨kv, ?_⟩
    simp only [pairIntersect, List.mem_filter, List.any_eq_true, beq_iff_eq]
    exact ⟨hq, kv, hfs, rfl⟩

theorem dictFilter_ok (q : Fields) (hqh : q.all (fun kv => pyHashable kv.2) = true) :
    ∀ (l : List PyVal),
    (∀ r ∈ l, ∃ fs, r = PyVal.vDict fs ∧ fs.all (fun kv => pyHashable kv.2) = true) →
    dictFilter q l = .ok (l.filter (fun r =>
      match r with
      | .vDict fs => !(pairIntersect q fs).isEmpty
      | _ => false)) := by
  intro l
  induction l with
  | nil => intro _; rfl
  | cons r rest ih =>
    intro hl
    obtain ⟨fs, rfl, hfs⟩ := hl r (by simp)
    have hr := ih (fun x hx => hl x (by simp [hx]))
    by_cases hE : (pairIntersect q fs).isEmpty
    · simp [dictFilter, hqh, hfs, hr, List.filter_cons, hE]
    · simp only [Bool.not_eq_true] at hE
      simp [dictFilter, hqh, hfs, hr, List.filter_cons, hE]

/-- C4, corrected, amended claim: for every NON-EMPTY dict query whose
values are hashable, over a table of dict records with hashable field
values, `search` includes a stored record exactly when the set
intersection of its `(field, value)` pairs with the query's pairs is
non-empty — "any field matches", not "all fields match".  (The original
claim, quantified over every dict query, fails for the empty dict:
`{}` is falsy, takes the no-query branch and returns every record even
though every intersection with `{}` is empty — see the counterexample.
Unhashable — dict- or list-valued — pairs make `set()` raise
`TypeError`, hence the hashability hypotheses.) -/
theorem C4_structural_query (q : Fields) (tbl : Fields) (hq : q ≠ [])
    (hqh : q.all (fun kv => pyHashable kv.2) = true)
    (htbl : recordsWF tbl = true) :
    ∃ c, lemonSearch (.dict q) tbl Option.none = .ok (.cursor c) ∧
      ∀ fs, (PyVal.vDict fs ∈ c ↔ PyVal.vDict fs ∈ itemsItem tbl ∧ ∃ kv ∈ q, kv ∈ fs) := by
  obtain ⟨items, hI⟩ := itemsDict_ok tbl htbl
  have hvals : ∀ r ∈ itemsItem tbl,
      ∃ fs, r = PyVal.vDict fs ∧ fs.all (fun kv => pyHashable kv.2) = true := by
    intro r hr
    simp only [itemsItem, List.mem_map] at hr
    obtain ⟨p, hp, rfl⟩ := hr
    have hall := List.all_eq_true.mp htbl p hp
    match hv : p.2, hall with
    | .vDict fs, h₂ => exact ⟨fs, rfl, by simpa using h₂⟩
  have hD := dictFilter_ok q hqh (itemsItem tbl) hvals
  obtain ⟨p, q₂, rfl⟩ := List.exists_cons_of_ne_nil hq
  refine ⟨(itemsItem tbl).filter (fun r =>
      match r with
      | .vDict fs => !(pairIntersect (p :: q₂) fs).isEmpty
      | _ => false), ?_, ?_⟩
  · simp [lemonSearch, hI, hD, rateBlock]
  · intro fs
    rw [List.mem_filter]
    have hiff := pairIntersect_isEmpty_false (p :: q₂) fs
    constructor
    · rintro ⟨hmem, hmatch⟩
      exact ⟨hmem, hiff.mp (by simpa using hmatch)⟩
    · rintro ⟨hmem, hex⟩
      exact ⟨hmem, by simpa using hiff.mpr hex⟩

/-- C4 witness: the spec's own example — on a table holding
`{"name": "John", "age": 1}` and `{"age": 1}`, the query
`{"name": "John"}` returns exactly the first record. -/
theorem C4_structural_query_witness :
    (∃ c, lemonSearch (.dict [("name", PyVal.vStr "John")])
        [("0", PyVal.vDict [("name", PyVal.vStr "John"), ("age", PyVal.vInt 1)]),
         ("1", PyVal.vDict [("age", PyVal.vInt 1)])] Option.none = .ok (.cursor c) ∧
      ∀ fs, (PyVal.vDict fs ∈ c ↔
        PyVal.vDict fs ∈ itemsItem
          [("0", PyVal.vDict [("name", PyVal.vStr "John"), ("age", PyVal.vInt 1)]),
           ("1", PyVal.vDict [("age", PyVal.vInt 1)])] ∧
        ∃ kv ∈ [("name", PyVal.vStr "John")], kv ∈ fs)) ∧
    lemonSearch (.dict [("name", PyVal.vStr "John")])
        [("0", PyVal.vDict [("name", PyVal.vStr "John"), ("age", PyVal.vInt 1)]),
         ("1", PyVal.vDict [("age", PyVal.vInt 1)])] Option.none
      = .ok (.cursor [PyVal.vDict [("name", PyVal.vStr "John"), ("age", PyVal.vInt 1)]]) :=
  ⟨C4_structural_query _ _ (by decide) (by decide) (by decide), by decide⟩

/-- C4 counterexample to the claim as stated: the empty dict query is
falsy, so `search({})` takes the no-query branch and returns the stored
record even though the intersection of the record's pairs with `{}` is
empty — the claimed "include iff the intersection is non-empty" fails
at this input. -/
theorem C4_structural_query_counterexample :
    lemonSearch (.dict []) [("0", PyVal.vDict [("a", PyVal.vInt 1)])] Option.none
      = .ok (.cursor [PyVal.vDict [("a", PyVal.vInt 1)]]) ∧
    pairIntersect [] [("a", PyVal.vInt 1)] = [] := by
  decide

end LemonDB

namespace LemonDB

/-! ## Rate bounding -/

theorem search_eq_filtered_map (q : PyQuery) (tbl : Fields) (rate : Option Int) :
    lemonSearch q tbl rate = (searchFiltered q tbl).map (fun c => rateBlock rate c) := by
  unfold lemonSearch searchFiltered
  cases hI : itemsDict tbl with
  | error e => cases q <;> simp [Except.map]
  | ok items =>
    cases q with
    | none => simp [Except.map]
    | dict q =>
      cases q with
      | nil => simp [Except.map]
      | cons a l =>
        cases hD : dictFilter (a :: l) (itemsItem tbl) <;> simp [hD, Except.map]
    | sq op operand field =>
      cases hR : reconstruct items <;> simp [hR, Except.map]
    | lam p =>
      cases hR : reconstruct items <;> simp [hR, Except.map]
    | re pattern =>
      by_cases hp : pattern = ""
      · subst hp; simp [Except.map]
      · cases hR : reResultItems pattern items <;> simp [hp, hR, Except.map]

/-- C5, corrected, amended claim: in every query mode the rate option
is applied uniformly after filtering — `search` equals the rate block
applied to the mode's filtered result — and, for every NONZERO rate:
an empty filtered result yields the empty list regardless of the rate;
`rate <= 1` yields the single first matching element (a bare record,
not a one-element list); `rate > 1` yields the first `rate` elements.
(The original claim fails at `rate = 0`: `0 <= 1`, yet `if rate:` is
falsy, so the whole filtered cursor is returned as if no rate had been
given — see the counterexample.) -/
theorem C5_rate_bounding (q : PyQuery) (tbl : Fields) (rate : Option Int) :
    lemonSearch q tbl rate = (searchFiltered q tbl).map (fun c => rateBlock rate c) ∧
    (∀ r : Int, r ≠ 0 →
      (rateBlock (some r) [] = .pylist []) ∧
      (∀ (c : List PyVal) (x : PyVal) (xs : List PyVal), c = x :: xs → r ≤ 1 →
        rateBlock (some r) c = .one x) ∧
      (∀ (c : List PyVal), c ≠ [] → 1 < r →
        rateBlock (some r) c = .cursor (c.take r.toNat))) := by
  constructor
  · exact search_eq_filtered_map q tbl rate
  · intro r hr
    refine ⟨by simp [rateBlock, hr], ?_, ?_⟩
    · rintro c x xs rfl hle
      simp [rateBlock, hr, hle]
    · intro c hc hgt
      obtain ⟨x, xs, rfl⟩ := List.exists_cons_of_ne_nil hc
      have hnle : ¬ r ≤ 1 := by omega
      simp [rateBlock, hr, hnle]

/-- C5 witness: five stored records with `rate = 2` yield exactly the
first two; `rate = 1` yields the bare first record; an empty result
with a rate yields the empty list. -/
theorem C5_rate_bounding_witness :
    rateBlock (some 2) [PyVal.vInt 1, PyVal.vInt 2, PyVal.vInt 3, PyVal.vInt 4, PyVal.vInt 5]
      = .cursor [PyVal.vInt 1, PyVal.vInt 2] ∧
    rateBlock (some 1) [PyVal.vInt 1, PyVal.vInt 2] = .one (PyVal.vInt 1) ∧
    rateBlock (some 5) ([] : List PyVal) = .pylist [] := by
  refine ⟨?_, ?_, ?_⟩
  · have h := ((C5_rate_bounding PyQuery.none [] (some 2)).2 2 (by decide)).2.2
      [PyVal.vInt 1, PyVal.vInt 2, PyVal.vInt 3, PyVal.vInt 4, PyVal.vInt 5]
      (by decide) (by decide)
    simpa using h
  · exact ((C5_rate_bounding PyQuery.none [] (some 1)).2 1 (by decide)).2.1
      _ (PyVal.vInt 1) [PyVal.vInt 2] rfl (by decide)
  · exact ((C5_rate_bounding PyQuery.none [] (some 5)).2 5 (by decide)).1

/-- C5 counterexample to the claim as stated: with two stored records
and `rate = 0` (which satisfies `rate <= 1`), `search` returns the full
two-element cursor rather than the single first matching record. -/
theorem C5_rate_bounding_counterexample :
    lemonSearch .none
        [("0", PyVal.vDict [("a", PyVal.vInt 1)]), ("1", PyVal.vDict [("a", PyVal.vInt 2)])]
        (some 0)
      = .ok (.cursor [PyVal.vDict [("a", PyVal.vInt 1)], PyVal.vDict [("a", PyVal.vInt 2)]]) ∧
    (0 : Int) ≤ 1 ∧
    lemonSearch .none
        [("0", PyVal.vDict [("a", PyVal.vInt 1)]), ("1", PyVal.vDict [("a", PyVal.vInt 2)])]
        (some 0)
      ≠ .ok (.one (PyVal.vDict [("a", PyVal.vInt 1)])) := by
  decide

end LemonDB

namespace LemonDB

/-! ## Update failure atomicity -/

/-- C6, confirmed: for every database state and every query matching no
stored record of the active table, `update(query, patch)` raises the
no-match error (`SearchQueryError`, the spec's `NotFound`; the
`lemondb.errors` module itself is absent from the source tree) and
performs NO file write — the empty write log shows the check precedes
any write, leaving the backing file unchanged. -/
theorem C6_update_no_match (db : Fields) (tname : String) (q : PyQuery) (item : Fields)
    (decoded : Fields) (fs : Fields)
    (hread : storageRead db = .ok decoded)
    (htbl : dictGet decoded tname = some (.vDict fs))
    (hnomatch : searchFiltered q fs = .ok []) :
    lemonUpdate db tname q item = (.error .searchQueryError, []) := by
  have hs : lemonSearch q fs (some 1) = .ok (.pylist []) := by
    rw [search_eq_filtered_map, hnomatch]
    rfl
  simp [lemonUpdate, hread, htbl, hs, sresTruthy]

/-- C6 witness: on a one-record database, updating with a dict query
that matches nothing raises `SearchQueryError` and writes nothing. -/
theorem C6_update_no_match_witness :
    lemonUpdate
      [("__version__", PyVal.vSeq [.vInt 1, .vInt 0, .vInt 0]),
       ("_table", PyVal.vDict [("0",
         PyVal.vDict [("name", PyVal.vStr "a"), ("$type", PyVal.vSeq [.vStr "str"])])])]
      "_table" (.dict [("name", PyVal.vStr "zzz")]) [("x", PyVal.vInt 1)]
      = (.error .searchQueryError, []) := by
  refine C6_update_no_match _ _ _ _
    [("__version__", PyVal.vSeq [.vInt 1, .vInt 0, .vInt 0]),
     ("_table", PyVal.vDict [("0", PyVal.vDict [("name", PyVal.vStr "a")])])]
    [("0", PyVal.vDict [("name", PyVal.vStr "a")])] ?_ (by decide) (by decide)
  simp [storageRead, decodeTable, pyUntypenize, dictPop, dictGet, dictRemoveKey,
    untypenizeFields, invTypeTag, applyType]

end LemonDB

namespace LemonDB

/-! ## Delete (code bug: the version entry crashes the scan) -/

/-- C7, code bug: on a standard database — whose first entry is the
`__version__` list that `_init_db` writes — EVERY `delete` call raises
`AttributeError` (`'list' object has no attribute 'items'`) while
iterating `data.items()`, before any record is removed or any write
happens; two structurally identical records both survive
`delete(literal)` with either `remove_all` value.  The last two
conjuncts show the claimed delete-first/delete-all semantics is exactly
what the same scan computes once the version entry is skipped (as
`LemonStorage.read` does with its "Ignore the version" guard), which
the middleware's scan forgot — the claim matches the intent, the code
is the slip. -/
theorem C7_delete_version_crash :
    lemonDelete
      [("__version__", PyVal.vSeq [.vInt 1, .vInt 0, .vInt 0]),
       ("_table", PyVal.vDict [
         ("0", PyVal.vDict [("name", PyVal.vStr "a"), ("$type", PyVal.vSeq [.vStr "str"])]),
         ("1", PyVal.vDict [("name", PyVal.vStr "a"), ("$type", PyVal.vSeq [.vStr "str"])])])]
      "_table"
      (.mapping [("name", PyVal.vStr "a"), ("$type", PyVal.vSeq [.vStr "str"])]) false
      = (.error .attributeError, []) ∧
    lemonDelete
      [("__version__", PyVal.vSeq [.vInt 1, .vInt 0, .vInt 0]),
       ("_table", PyVal.vDict [
         ("0", PyVal.vDict [("name", PyVal.vStr "a"), ("$type", PyVal.vSeq [.vStr "str"])]),
         ("1", PyVal.vDict [("name", PyVal.vStr "a"), ("$type", PyVal.vSeq [.vStr "str"])])])]
      "_table"
      (.mapping [("name", PyVal.vStr "a"), ("$type", PyVal.vSeq [.vStr "str"])]) true
      = (.error .attributeError, []) ∧
    jsonMidDelete
      [("_table", PyVal.vDict [
         ("0", PyVal.vDict [("name", PyVal.vStr "a"), ("$type", PyVal.vSeq [.vStr "str"])]),
         ("1", PyVal.vDict [("name", PyVal.vStr "a"), ("$type", PyVal.vSeq [.vStr "str"])])])]
      (.recKey (PyVal.vDict [("name", PyVal.vStr "a"), ("$type", PyVal.vSeq [.vStr "str"])]))
      false
      = .ok [("_table", PyVal.vDict [
          ("1", PyVal.vDict [("name", PyVal.vStr "a"), ("$type", PyVal.vSeq [.vStr "str"])])])] ∧
    jsonMidDelete
      [("_table", PyVal.vDict [
         ("0", PyVal.vDict [("name", PyVal.vStr "a"), ("$type", PyVal.vSeq [.vStr "str"])]),
         ("1", PyVal.vDict [("name", PyVal.vStr "a"), ("$type", PyVal.vSeq [.vStr "str"])])])]
      (.recKey (PyVal.vDict [("name", PyVal.vStr "a"), ("$type", PyVal.vSeq [.vStr "str"])]))
      true
      = .ok [("_table", PyVal.vDict [])] := by
  decide

/-! ## Comparative query (code bug: the evaluator is fed field values) -/

/-- C8, code bug: the comparative evaluator itself computes
`ops[op](record[field], rhs)` with the claimed textual substitution —
the first three conjuncts show the exact-case match, the
case-insensitive substitution and the raw-operand fallback on a real
record — but `search` never feeds it records: `items(dict=True)`
collapses the table to the single-binding FIELD dicts of the last
record, `reconstruct` flattens them to bare field values, and
`i[item]` on a bare string raises `TypeError`, which `Linq.where`
swallows.  The last conjunct evaluates the failing input: on a table
holding exactly `{"name": "John Doe"}`, the docstring's own example
query `name == "John Doe"` returns an empty cursor. -/
theorem C8_comparative_query :
    sqWrapper .eq (PyVal.vStr "John Doe") "name"
        (PyVal.vDict [("name", PyVal.vStr "John Doe")]) = .ok true ∧
    sqWrapper .eq (PyVal.vStr "john doe") "name"
        (PyVal.vDict [("name", PyVal.vStr "John Doe")]) = .ok true ∧
    sqWrapper .eq (PyVal.vStr "xyz") "name"
        (PyVal.vDict [("name", PyVal.vStr "John Doe")]) = .ok false ∧
    lemonSearch (.sq .eq (PyVal.vStr "John Doe") "name")
        [("0", PyVal.vDict [("name", PyVal.vStr "John Doe")])] Option.none
      = .ok (.cursor []) := by
  decide

/-! ## Predicate errors swallowed -/

theorem linqWhere_eq_filter {α : Type} (p : α → Except PyErr Bool) (l : List α) :
    linqWhere p l = l.filter (fun x =>
      match p x with
      | .ok true => true
      | _ => false) := by
  induction l with
  | nil => rfl
  | cons x xs ih =>
    cases hp : p x with
    | ok b => cases b <;> simp [linqWhere, List.filter_cons, hp, ih]
    | error e => simp [linqWhere, List.filter_cons, hp, ih]

/-- C9, confirmed: predicate (lambda) evaluation runs per element inside
`try/except: pass` — `Linq.where` equals the filter that treats every
raised exception as a non-match, an element whose evaluation raises is
excluded from the result, and the remaining elements are still
evaluated; at the search level the result is always an ordinary `.ok`
cursor, never a propagated exception. -/
theorem C9_predicate_errors_swallowed (p : PyVal → Except PyErr Bool) (l : List PyVal) :
    linqWhere p l = l.filter (fun x =>
      match p x with
      | .ok true => true
      | _ => false) ∧
    (∀ x ∈ l, (∃ e, p x = .error e) → x ∉ linqWhere p l) ∧
    (∀ (tbl : Fields) (rate : Option Int) (items recon : List PyVal),
      itemsDict tbl = .ok items → reconstruct items = .ok recon →
      lemonSearch (.lam p) tbl rate = .ok (rateBlock rate (linqWhere p recon))) := by
  refine ⟨linqWhere_eq_filter p l, ?_, ?_⟩
  · intro x hx he
    rw [linqWhere_eq_filter]
    rw [List.mem_filter]
    rintro ⟨-, hm⟩
    obtain ⟨e, he⟩ := he
    simp [he] at hm
  · intro tbl rate items recon hI hR
    simp [lemonSearch, hI, hR]

/-- C9 witness: a predicate that raises on the middle element keeps the
elements around it and drops the raising one; the exception never
escapes. -/
theorem C9_predicate_errors_swallowed_witness :
    linqWhere (fun v =>
      match v with
      | PyVal.vInt 2 => .error .typeError
      | PyVal.vInt _ => .ok true
      | _ => .ok false)
      [PyVal.vInt 1, PyVal.vInt 2, PyVal.vInt 3] = [PyVal.vInt 1, PyVal.vInt 3] ∧
    PyVal.vInt 2 ∉ linqWhere (fun v =>
      match v with
      | PyVal.vInt 2 => .error .typeError
      | PyVal.vInt _ => .ok true
      | _ => .ok false)
      [PyVal.vInt 1, PyVal.vInt 2, PyVal.vInt 3] := by
  have h := C9_predicate_errors_swallowed (fun v =>
      match v with
      | PyVal.vInt 2 => .error .typeError
      | PyVal.vInt _ => .ok true
      | _ => .ok false)
    [PyVal.vInt 1, PyVal.vInt 2, PyVal.vInt 3]
  refine ⟨?_, h.2.1 (PyVal.vInt 2) (by simp) ⟨.typeError, rfl⟩⟩
  rw [h.1]
  rfl

/-! ## Insert mutates and returns its argument -/

/-- C10, confirmed: for a mapping item (with no `id` or `$type` field
of its own), `insert` returns the TYPENIZED mapping — in Python the
very same object the caller passed, mutated in place, which this
functional embedding renders as: the returned value equals
`typenize item` — whose keys are the item's keys with `$type` appended
and which carries no `id` field (the id lives only in the table key). -/
theorem C10_insert_returns_typenized (db : Fields) (tname : String) (item : Fields)
    (ret : Fields) (db₂ : Fields)
    (hok : lemonInsert db tname item = .ok (ret, db₂))
    (hid : "id" ∉ item.map Prod.fst)
    (hstype : "$type" ∉ item.map Prod.fst) :
    ret = pyTypenize item ∧
    ret.map Prod.fst = item.map Prod.fst ++ ["$type"] ∧
    "$type" ∈ ret.map Prod.fst ∧
    "id" ∉ ret.map Prod.fst := by
  have hkeys0 : (pyTypenizeAux item []).1.map Prod.fst = item.map Prod.fst :=
    pyTypenizeAux_keys item []
  have hst : "$type" ∉ (pyTypenizeAux item []).1.map Prod.fst := by
    rw [hkeys0]; exact hstype
  have hty : pyTypenize item
      = (pyTypenizeAux item []).1 ++ [("$type", .vSeq (pyTypenizeAux item []).2)] := by
    unfold pyTypenize
    exact dictUpdate_of_not_mem _ _ _ hst
  have hret : ret = pyTypenize item := by
    unfold lemonInsert at hok
    cases hrt : readTable db tname <;> simp [hrt] at hok
    rename_i tbl
    cases hinc : _increment_id tbl <;> simp [hinc] at hok
    exact hok.1.symm
  have hkeys : ret.map Prod.fst = item.map Prod.fst ++ ["$type"] := by
    rw [hret, hty]
    simp [hkeys0]
  refine ⟨hret, hkeys, ?_, ?_⟩
  · rw [hkeys]; simp
  · rw [hkeys]
    simp only [List.mem_append, List.mem_singleton]
    rintro (h | h)
    · exact hid h
    · exact absurd h (by decide)

/-- C10 witness: inserting `{"name": "a"}` into a fresh default table
returns the typenized mapping `{"name": "a", "$type": ["str"]}` — with
`$type` attached and no `id` field — and stores that same mapping at id
0. -/
theorem C10_insert_returns_typenized_witness :
    ∃ ret db₂,
      lemonInsert
        [("__version__", PyVal.vSeq [.vInt 1, .vInt 0, .vInt 0]),
         ("_table", PyVal.vDict [])] "_table" [("name", PyVal.vStr "a")]
        = .ok (ret, db₂) ∧
      ret = pyTypenize [("name", PyVal.vStr "a")] ∧
      "$type" ∈ ret.map Prod.fst ∧
      "id" ∉ ret.map Prod.fst := by
  have hok : lemonInsert
      [("__version__", PyVal.vSeq [.vInt 1, .vInt 0, .vInt 0]),
       ("_table", PyVal.vDict [])] "_table" [("name", PyVal.vStr "a")]
      = .ok ([("name", PyVal.vStr "a"), ("$type", PyVal.vSeq [.vStr "str"])],
        [("__version__", PyVal.vSeq [.vInt 1, .vInt 0, .vInt 0]),
         ("_table", PyVal.vDict [("0",
           PyVal.vDict [("name", PyVal.vStr "a"), ("$type", PyVal.vSeq [.vStr "str"])])])]) := by
    simp [lemonInsert, readTable, dictGet, _increment_id, pyIntParse, pyTypenize,
      pyTypenizeAux, typeTag, convertLeaf, dictUpdate]
    rfl
  have h := C10_insert_returns_typenized _ _ _ _ _ hok (by decide) (by decide)
  exact ⟨_, _, hok, h.1, h.2.2.1, h.2.2.2⟩

end LemonDB
